import Mathlib

/-!
# ELAS capture loop (`src/main.cpp`): embedding and checked properties

The program pulls stereo pairs from a camera, runs the dense matcher, converts
disparity to depth and writes one `ELAS-<index>.pdm` and one `Grey-<index>.pgm`
per processed frame.  This file embeds `main` as pure functions over an explicit
camera script and an explicit log of side effects (camera calls, file writes).

Conventions of the embedding:
* `int` is a 32-bit two's complement integer, `unsigned int` is 32 bits wide and
  `size_t` is 64 bits wide (LP64); values are `Nat`/`Int` with explicit reduction.
* raw buffers (`uchar*`, `float*`) are functions from a byte offset to a byte;
* a finite `double` is given by its exact rational value (negative zero is kept
  apart for printing); arithmetic on doubles is never redone here: it happens in
  library code (Sophus, Eigen, the depth kernel) that enters as a parameter.
* `std::cout`/`std::cerr` output is not recorded: no statement below is about it.
-/

namespace Elas

/-! ## Text formatting (`sprintf`, `operator<<`) -/

/-- The ASCII digit for a value below ten. -/
def digitChar : Nat → Char
  | 0 => '0' | 1 => '1' | 2 => '2' | 3 => '3' | 4 => '4'
  | 5 => '5' | 6 => '6' | 7 => '7' | 8 => '8' | _ => '9'

/-- Decimal digits of `n`, most significant first; `fuel` bounds the number of digits. -/
def decimalAux : Nat → Nat → List Char
  | 0, _ => []
  | fuel + 1, n =>
    if n < 10 then [digitChar n] else decimalAux fuel (n / 10) ++ [digitChar (n % 10)]

/-- Decimal rendering of a natural number without padding (`"0"` for zero). -/
def decimal (n : Nat) : List Char := decimalAux (n + 1) n

/-- Left-pad `s` with the character `'0'` up to the minimum field width `w`. -/
def padZeros (w : Nat) (s : List Char) : List Char :=
  List.replicate (w - s.length) '0' ++ s

/-- The conversion `%05d` of `sprintf`: minimum field width 5, zero padding placed
after the sign. -/
def fmt05d (i : Int) : List Char :=
  if i < 0 then '-' :: padZeros 4 (decimal i.natAbs) else padZeros 5 (decimal i.toNat)

/-- Stream insertion `os << i` of an `int`: plain decimal with a sign for negatives. -/
def showInt (i : Int) : List Char :=
  if i < 0 then '-' :: decimal i.natAbs else decimal i.toNat

/-- Round the non-negative fraction `num / den` to the nearest integer, ties to even. -/
def roundHalfEven (num den : Nat) : Nat :=
  let q := num / den
  let r := num % den
  if 2 * r < den then q
  else if den < 2 * r then q + 1
  else if q % 2 = 0 then q else q + 1

/-- A finite `double`: its exact rational value, with the IEEE negative zero as a
value of its own (it compares equal to zero but carries the sign bit, which
`printf` shows).  NaN and the infinities are not represented. -/
inductive Double where
  | negZero
  | finite (value : ℚ)
deriving DecidableEq

/-- The real number a `double` stands for. -/
def Double.value : Double → ℚ
  | Double.negZero => 0
  | Double.finite v => v

/-- The sign bit (`std::signbit`): set for negative values and for negative zero. -/
def Double.signbit : Double → Bool
  | Double.negZero => true
  | Double.finite v => decide (v < 0)

instance (n : Nat) : OfNat Double n := ⟨Double.finite n⟩

/-- The conversion `%015.10f` of `sprintf` on a finite `double`: the magnitude
rounded to ten decimals, at least one integer digit, a minus sign when the sign bit
is set and zero padding after the sign up to the minimum field width 15. -/
def fmt015_10f (t : Double) : List Char :=
  let s := roundHalfEven (t.value.num.natAbs * 10 ^ 10) t.value.den
  let body := decimal (s / 10 ^ 10) ++ '.' :: padZeros 10 (decimal (s % 10 ^ 10))
  if t.signbit = true then '-' :: padZeros 14 body else padZeros 15 body

/-- Conversion of an unsigned value to `int` (`static_cast<int>`): reduction modulo
`2^32` read as two's complement, as C++20 and the usual compilers define it. -/
def toInt32 (n : Nat) : Int :=
  if n % 2 ^ 32 < 2 ^ 31 then ((n % 2 ^ 32 : Nat) : Int) else ((n % 2 ^ 32 : Nat) : Int) - 2 ^ 32

/-- Conversion of a value to `unsigned int`: reduction modulo `2^32`. -/
def toUInt32 (n : Nat) : Nat := n % 2 ^ 32

/-- Conversion of a mathematical integer to `size_t`: reduction modulo `2^64`. -/
def toSizeT (i : Int) : Nat := (i % 2 ^ 64).toNat

/-! ## Calibration data (`calibu::Rig`, `Sophus::SE3d`) -/

/-- A 3-vector of scalars (`Eigen::Vector3d`). -/
structure Vec3 where
  x : ℚ
  y : ℚ
  z : ℚ
deriving DecidableEq

/-- A 3x3 matrix of scalars, row by row (`Eigen::Matrix3d`). -/
structure Mat3 where
  m00 : ℚ
  m01 : ℚ
  m02 : ℚ
  m10 : ℚ
  m11 : ℚ
  m12 : ℚ
  m20 : ℚ
  m21 : ℚ
  m22 : ℚ
deriving DecidableEq

/-- The identity matrix. -/
def Mat3.one : Mat3 := ⟨1, 0, 0, 0, 1, 0, 0, 0, 1⟩

/-- Matrix transpose; on a rotation this is `SO3d::inverse()`. -/
def Mat3.transpose (a : Mat3) : Mat3 :=
  ⟨a.m00, a.m10, a.m20, a.m01, a.m11, a.m21, a.m02, a.m12, a.m22⟩

/-- Matrix product; composition of rotations (`SO3d::operator*`). -/
def Mat3.mul (a b : Mat3) : Mat3 :=
  ⟨a.m00 * b.m00 + a.m01 * b.m10 + a.m02 * b.m20,
   a.m00 * b.m01 + a.m01 * b.m11 + a.m02 * b.m21,
   a.m00 * b.m02 + a.m01 * b.m12 + a.m02 * b.m22,
   a.m10 * b.m00 + a.m11 * b.m10 + a.m12 * b.m20,
   a.m10 * b.m01 + a.m11 * b.m11 + a.m12 * b.m21,
   a.m10 * b.m02 + a.m11 * b.m12 + a.m12 * b.m22,
   a.m20 * b.m00 + a.m21 * b.m10 + a.m22 * b.m20,
   a.m20 * b.m01 + a.m21 * b.m11 + a.m22 * b.m21,
   a.m20 * b.m02 + a.m21 * b.m12 + a.m22 * b.m22⟩

/-- Action of a matrix on a vector (`SO3d::operator*(Point)`). -/
def Mat3.mulVec (a : Mat3) (v : Vec3) : Vec3 :=
  ⟨a.m00 * v.x + a.m01 * v.y + a.m02 * v.z,
   a.m10 * v.x + a.m11 * v.y + a.m12 * v.z,
   a.m20 * v.x + a.m21 * v.y + a.m22 * v.z⟩

/-- Vector sum. -/
def Vec3.add (u v : Vec3) : Vec3 := ⟨u.x + v.x, u.y + v.y, u.z + v.z⟩

/-- Multiplication of a vector by a scalar. -/
def Vec3.smul (c : ℚ) (v : Vec3) : Vec3 := ⟨c * v.x, c * v.y, c * v.z⟩

/-- Sum of the squared components (`squaredNorm()`). -/
def Vec3.squaredNorm (v : Vec3) : ℚ := v.x * v.x + v.y * v.y + v.z * v.z

/-- A camera pose (`Sophus::SE3d`) as the calibration gives it: a rotation matrix
and a translation. -/
structure SE3 where
  so3 : Mat3
  translation : Vec3
deriving DecidableEq

/-- Inverse of a rigid transform in exact arithmetic: the inverse rotation `invR`
together with `invR * (translation * -1)`, the formula of `SE3d::inverse()`.  It
serves as the stand-in for the pose library in the sample inputs. -/
def SE3.inverse (t : SE3) : SE3 :=
  ⟨t.so3.transpose, t.so3.transpose.mulVec (Vec3.smul (-1) t.translation)⟩

/-- Composition of rigid transforms in exact arithmetic: rotations compose and
the translation is `translation + so3 * other.translation`, the formula of
`SE3d::operator*`.  Stand-in for the pose library in the sample inputs. -/
def SE3.mul (a b : SE3) : SE3 :=
  ⟨a.so3.mul b.so3, a.translation.add (a.so3.mulVec b.translation)⟩

/-- One camera of a rig: intrinsic matrix `K()` and `Pose()`. -/
structure CameraModel where
  K : Mat3
  Pose : SE3
deriving DecidableEq

/-- A camera rig (`calibu::Rig<double>`): the list `cameras_`. -/
structure Rig where
  cameras_ : List CameraModel
deriving DecidableEq

/-- Number of cameras of the rig (`Rig::NumCams`). -/
def Rig.NumCams (r : Rig) : Nat := r.cameras_.length

/-! ## Camera, collaborators and the log of side effects -/

/-- Content of the `hal::ImageArray` after a successful `Capture`: the data of
`at(0)` and `at(1)` and the value of `SystemTime()`. -/
structure StereoFrame where
  left : List Nat
  right : List Nat
  SystemTime : Double
deriving DecidableEq

/-- The camera (`hal::Camera`).  `Capture k` is what the call number `k` (counted
from 0 over the whole run) delivers: `none` when `Capture` returns `false`.
`rectifyDriver` is the rig of the rectifying driver when `GetDriver` finds one. -/
structure Camera where
  Width : Nat
  Height : Nat
  rectifyDriver : Option Rig
  Capture : Nat → Option StereoFrame

/-- The command line as `main` reads it through `GetPot`. -/
structure Args where
  skip_frames : Int
  export_time : Bool
  cmod : String

/-- Library code called by `main` whose text is outside the program: the value of
the macro `EXIT_FAILURE`, the calibration reader, the pose operations of Sophus
(`SE3d::inverse`, `SE3d::operator*`) and the vector norm of Eigen (`norm()`), all
three in double arithmetic with its rounding, the narrowing of a `double` to
`float` (`cast<float>`), the stereo matcher (`Elas::process`, filling both
disparity buffers) and the disparity-to-depth kernel together with its two buffer
copies (`roo::Disp2Depth`).  A `double` result is given by its exact value. -/
structure Collaborators where
  EXIT_FAILURE : Int
  ReadXmlRig : String → Rig
  inverse : SE3 → SE3
  compose : SE3 → SE3 → SE3
  norm : Vec3 → ℚ
  toFloat : ℚ → ℚ
  process : List Nat → List Nat → Int × Int × Int → (Nat → Nat) × (Nat → Nat)
  Disp2Depth : Nat → Nat → (Nat → Nat) → ℚ → ℚ → (Nat → Nat)

/-- Baseline as `main` computes it (lines 119-121): the library's norm of the
translation of `cameras_[0]->Pose().inverse() * cameras_[1]->Pose()`. -/
def baselineOf (c : Collaborators) (cam0 cam1 : CameraModel) : ℚ :=
  c.norm (c.compose (c.inverse cam0.Pose) cam1.Pose).translation

/-- A single-channel 32-bit float matrix (`cv::Mat` of type `CV_32FC1`): `int`
dimensions and the raw bytes at `data`. -/
structure Mat where
  rows : Int
  cols : Int
  data : Nat → Nat

/-- Width in bytes of one element (`elemSize1()` of `CV_32FC1`). -/
def Mat.elemSize1 (_m : Mat) : Nat := 4

/-- A side effect of the main loop, in program order. -/
inductive Event where
  | skipCapture (call : Nat)
  | keptCapture (call : Nat) (ok : Bool)
  | depthFile (name : String) (bytes : List Nat)
  | greyFile (name : String) (image : List Nat)
deriving DecidableEq

/-- The bytes of an ASCII text. -/
def asciiBytes (s : List Char) : List Nat := s.map Char.toNat

/-- The three header lines written at lines 193-196: `P7`, then `cols rows`, then
the literal `4294967295`, each ended by `std::endl`. -/
def pdmHeader (hDepth : Mat) : List Char :=
  "P7\n".data ++ showInt hDepth.cols ++ " ".data ++ showInt hDepth.rows ++ "\n".data
    ++ "4294967295".data ++ "\n".data

/-- The byte count of line 195: `elemSize1() * rows * cols` evaluated in `size_t`
and stored in an `unsigned int`. -/
def pdmSize (hDepth : Mat) : Nat :=
  toUInt32 ((hDepth.elemSize1 * toSizeT hDepth.rows % 2 ^ 64) * toSizeT hDepth.cols % 2 ^ 64)

/-- Everything written to the depth file (lines 192-198): the header, then
`Size` bytes starting at `hDepth.data`. -/
def pdmBytes (hDepth : Mat) : List Nat :=
  asciiBytes (pdmHeader hDepth) ++ (List.range (pdmSize hDepth)).map hDepth.data

/-- The text `index` of lines 183-187.  The buffer `char index[30]` holds texts of
up to 29 characters; writing a longer text is undefined in C and is not
represented here (the counter text has at most 11 characters, the time stamp text
is shorter than 30 characters for values between `-10^17` and `10^18`). -/
def frameIndex (export_time : Bool) (timestamp : Double) (frame : Nat) : List Char :=
  if export_time then fmt015_10f timestamp else fmt05d (toInt32 frame)

/-- Name of the depth file (line 190). -/
def DepthFile (index : List Char) : String := "ELAS-" ++ String.mk index ++ ".pdm"

/-- Name of the grey file (line 203). -/
def GreyFile (index : List Char) : String := "Grey-" ++ String.mk index ++ ".pgm"

/-- What `main` fixes before the loop: the image size as `unsigned int`, the two
flags, the focal length `Kl(0,0)` and the baseline. -/
structure Setup where
  width : Nat
  height : Nat
  skip_frames : Int
  export_time : Bool
  focal : ℚ
  baseline : ℚ

/-- The host depth matrix after lines 163-176: both images are repacked
(`width * height` bytes each), the matcher fills both disparity buffers, and only
the first one goes through `Disp2Depth` into `hDepth`.  The kernel is called with
the `double` values `Kl(0,0)` and `baseline`; what it makes of them is its own. -/
def computeDepth (c : Collaborators) (su : Setup) (images : StereoFrame) : Mat :=
  let n := toUInt32 (su.width * su.height)
  let dims : Int × Int × Int := (toInt32 su.width, toInt32 su.height, toInt32 su.width)
  let hDisparity := c.process (images.left.take n) (images.right.take n) dims
  { rows := toInt32 su.height
    cols := toInt32 su.width
    data := c.Disp2Depth su.width su.height hDisparity.1 su.focal su.baseline }

/-- The two files of one processed frame (lines 179-205). -/
def exportFrame (c : Collaborators) (su : Setup) (frame : Nat) (images : StereoFrame) :
    List Event :=
  let index := frameIndex su.export_time images.SystemTime frame
  [Event.depthFile (DepthFile index) (pdmBytes (computeDepth c su images)),
   Event.greyFile (GreyFile index) images.left]

/-- State of the `for` loop of line 150: the counter `frame`, the number of
`Capture` calls made so far, the log, and whether `break` was taken. -/
structure LoopState where
  frame : Nat
  calls : Nat
  log : List Event
  stopped : Bool

/-- The state in which the loop is entered. -/
def LoopState.init : LoopState := ⟨0, 0, [], false⟩

/-- The calls of the inner loop of lines 152-154: one `Capture` per value of `ii`
from 0 while `ii < skip_frames`, results not looked at. -/
def skipEvents (skip_frames : Int) (calls : Nat) : List Event :=
  (List.range skip_frames.toNat).map (fun ii => Event.skipCapture (calls + ii))

/-- One pass through the body of the loop (lines 152-205) followed by `++frame`. -/
def loopBody (c : Collaborators) (su : Setup) (camera : Camera) (s : LoopState) : LoopState :=
  let call := s.calls + su.skip_frames.toNat
  let log := s.log ++ skipEvents su.skip_frames s.calls
  match camera.Capture call with
  | none =>
    { frame := s.frame, calls := call + 1
      log := log ++ [Event.keptCapture call false], stopped := true }
  | some images =>
    { frame := (s.frame + 1) % 2 ^ 64, calls := call + 1
      log := log ++ Event.keptCapture call true :: exportFrame c su s.frame images
      stopped := false }

/-- The loop run for at most `fuel` passes; it stands still once `break` is taken. -/
def runLoop (c : Collaborators) (su : Setup) (camera : Camera) : Nat → LoopState → LoopState
  | 0, s => s
  | fuel + 1, s => if s.stopped then s else runLoop c su camera fuel (loopBody c su camera s)

/-- How far the process got: still inside the loop, or exited with a code. -/
inductive Status where
  | running
  | exited (code : Int)
deriving DecidableEq

/-- Observable result of a run: status and log. -/
structure Outcome where
  status : Status
  log : List Event
deriving DecidableEq

/-- Lines 78-90: the rig of the rectifying driver when there is one, otherwise
the rig read from the `-cmod` file, and `exit(EXIT_FAILURE)` without a file name. -/
def resolveRig (c : Collaborators) (args : Args) (camera : Camera) : Except Int Rig :=
  match camera.rectifyDriver with
  | some rig => Except.ok rig
  | none => if args.cmod = "" then Except.error c.EXIT_FAILURE else Except.ok (c.ReadXmlRig args.cmod)

/-- Lines 99-148 for a rig of two cameras: `Kl(0,0)` is entry `(0,0)` of the
intrinsic matrix of camera 0 after its narrowing to `float` (line 99). -/
def setupOf (c : Collaborators) (args : Args) (camera : Camera) (cam0 cam1 : CameraModel) :
    Setup :=
  { width := toUInt32 camera.Width
    height := toUInt32 camera.Height
    skip_frames := args.skip_frames
    export_time := args.export_time
    focal := c.toFloat cam0.K.m00
    baseline := baselineOf c cam0 cam1 }

/-- Lines 150-210 seen after `fuel` passes: the log so far, and exit code 0 once
the loop has been left. -/
def mainLoop (c : Collaborators) (su : Setup) (camera : Camera) (fuel : Nat) : Outcome :=
  let s := runLoop c su camera fuel LoopState.init
  ⟨if s.stopped then Status.exited 0 else Status.running, s.log⟩

/-- The program `main`.  A rig whose `NumCams()` is not 2 leads to `exit(1)`. -/
def main (c : Collaborators) (args : Args) (camera : Camera) (fuel : Nat) : Outcome :=
  match resolveRig c args camera with
  | Except.error code => ⟨Status.exited code, []⟩
  | Except.ok rig =>
    match rig.cameras_ with
    | [cam0, cam1] => mainLoop c (setupOf c args camera cam0 cam1) camera fuel
    | _ => ⟨Status.exited 1, []⟩

/-! ## Reading a run: passes, calls and file names -/

/-- Call number of the tested `Capture` of pass `i` (passes counted from 0): every
pass makes `skip_frames` untested calls (none when the flag is negative) and one
tested call. -/
def keptCall (su : Setup) (i : Nat) : Nat :=
  i * (su.skip_frames.toNat + 1) + su.skip_frames.toNat

/-- Events of pass `i` when all earlier passes went through. -/
def passLog (c : Collaborators) (su : Setup) (camera : Camera) (i : Nat) : List Event :=
  skipEvents su.skip_frames (i * (su.skip_frames.toNat + 1)) ++
    match camera.Capture (keptCall su i) with
    | none => [Event.keptCapture (keptCall su i) false]
    | some images =>
      Event.keptCapture (keptCall su i) true :: exportFrame c su (i % 2 ^ 64) images

/-- Names of the files written, in the order of writing. -/
def fileNames : List Event → List String
  | [] => []
  | Event.depthFile name _ :: rest => name :: fileNames rest
  | Event.greyFile name _ :: rest => name :: fileNames rest
  | _ :: rest => fileNames rest


/-! ## Reference renderings and sample inputs -/

/-- Decimal text of `i` with zeros added on the left up to five characters: the
reading of "zero-padded to 5 digits", built on the `toString` of the core library. -/
def zeroPadded5 (i : Nat) : String :=
  String.mk (List.replicate (5 - (toString i).length) '0') ++ toString i

/-- A camera at the origin. -/
def sampleCam0 : CameraModel := ⟨Mat3.one, ⟨Mat3.one, ⟨0, 0, 0⟩⟩⟩

/-- A camera one unit to the right of the origin. -/
def sampleCam1 : CameraModel := ⟨Mat3.one, ⟨Mat3.one, ⟨1, 0, 0⟩⟩⟩

/-- A rig of two cameras one unit apart. -/
def sampleRig : Rig := ⟨[sampleCam0, sampleCam1]⟩

/-- Stand-ins for the library code: the calibration reader knows the file
`rig.xml`, which holds the sample rig, and finds no camera elsewhere; poses are
combined in exact arithmetic; the norm is the rational square root, exact on
squares; narrowing to `float` changes nothing; the matcher copies its inputs and
the depth kernel copies the disparity bytes. -/
def sampleCollaborators : Collaborators :=
  { EXIT_FAILURE := 1
    ReadXmlRig := fun name => if name = "rig.xml" then sampleRig else ⟨[]⟩
    inverse := SE3.inverse
    compose := SE3.mul
    norm := fun v => Rat.sqrt v.squaredNorm
    toFloat := fun x => x
    process := fun l r _ => (fun k => l.getD k 0, fun k => r.getD k 0)
    Disp2Depth := fun _ _ d _ _ => d }

/-- A one-pixel frame with the given time stamp. -/
def sampleFrame (t : Double) : StereoFrame := ⟨[7], [9], t⟩

/-- A one-pixel rectified camera whose first `n` captures succeed and whose later
captures fail. -/
def countingCamera (n : Nat) : Camera :=
  { Width := 1, Height := 1, rectifyDriver := some sampleRig
    Capture := fun k => if k < n then some (sampleFrame 0) else none }

/-- A one-pixel rectified camera delivering the listed capture results, then failure. -/
def scriptedCamera (script : List (Option StereoFrame)) : Camera :=
  { Width := 1, Height := 1, rectifyDriver := some sampleRig
    Capture := fun k => script.getD k none }

/-- The command line `-skip_frames k` with counter naming. -/
def counterArgs (k : Int) : Args := ⟨k, false, ""⟩

/-- Call numbers of the tested captures that succeeded, in order: the captures
that were processed and exported. -/
def processedCalls : List Event → List Nat
  | [] => []
  | Event.keptCapture call true :: rest => call :: processedCalls rest
  | _ :: rest => processedCalls rest

/-- A one-pixel camera without rectifying driver whose captures all fail. -/
def bareCamera : Camera :=
  { Width := 1, Height := 1, rectifyDriver := none, Capture := fun _ => none }

/-- A one-pixel camera without rectifying driver whose first `n` captures succeed. -/
def plainCamera (n : Nat) : Camera :=
  { Width := 1, Height := 1, rectifyDriver := none
    Capture := fun k => if k < n then some (sampleFrame 0) else none }

/-- The command line `-cmod name` with counter naming and no skipping. -/
def fileArgs (name : String) : Args := ⟨0, false, name⟩

/-- Value of an ASCII digit. -/
def digitValue (ch : Char) : Nat := ch.toNat - 48

/-- Value of a text of ASCII digits read in base ten; leading zeros do not count. -/
def readDecimal (s : List Char) : Nat := s.foldl (fun acc ch => 10 * acc + digitValue ch) 0

/-- The `w` low decimal digits of `n`, most significant first. -/
def fixedDigits : Nat → Nat → List Char
  | 0, _ => []
  | w + 1, n => fixedDigits w (n / 10) ++ [digitChar (n % 10)]

/-- Read ASCII digits from the front of `bs` in base ten, starting from `acc`;
returns the value and the bytes from the first non-digit on. -/
def readDigits : List Nat → Nat → Nat × List Nat
  | [], acc => (acc, [])
  | b :: rest, acc =>
    if 48 ≤ b ∧ b ≤ 57 then readDigits rest (10 * acc + (b - 48)) else (acc, b :: rest)

/-- Read a decimal number of at least one digit. -/
def readNumber : List Nat → Option (Nat × List Nat)
  | [] => none
  | b :: rest => if 48 ≤ b ∧ b ≤ 57 then some (readDigits (b :: rest) 0) else none

/-- Remove the literal `lit` from the front of `bs`, when it is there. -/
def readLiteral : List Nat → List Nat → Option (List Nat)
  | [], bs => some bs
  | _ :: _, [] => none
  | l :: lit, b :: bs => if l = b then readLiteral lit bs else none

/-- Reader for the depth file layout `P7\n<width> <height>\n4294967295\n<payload>`:
returns width, height and the payload bytes that follow the header. -/
def readPdmHeader (bytes : List Nat) : Option (Nat × Nat × List Nat) :=
  match readLiteral (asciiBytes "P7\n".data) bytes with
  | none => none
  | some r1 =>
    match readNumber r1 with
    | none => none
    | some (w, r2) =>
      match readLiteral (asciiBytes " ".data) r2 with
      | none => none
      | some r3 =>
        match readNumber r3 with
        | none => none
        | some (h, r4) =>
          match readLiteral (asciiBytes "\n4294967295\n".data) r4 with
          | none => none
          | some payload => some (w, h, payload)

/-- A rectified camera announcing images of 32768 x 32768 pixels. -/
def wideCamera : Camera :=
  { Width := 32768, Height := 32768, rectifyDriver := some sampleRig
    Capture := fun _ => none }

theorem runLoop_stopped (c : Collaborators) (su : Setup) (camera : Camera) (fuel : Nat)
    (s : LoopState) (h : s.stopped = true) : runLoop c su camera fuel s = s := by
  cases fuel with
  | zero => rfl
  | succ f => simp [runLoop, h]

theorem runLoop_succ (c : Collaborators) (su : Setup) (camera : Camera) (fuel : Nat)
    (s : LoopState) :
    runLoop c su camera (fuel + 1) s =
      if (runLoop c su camera fuel s).stopped then runLoop c su camera fuel s
      else loopBody c su camera (runLoop c su camera fuel s) := by
  induction fuel generalizing s with
  | zero => simp [runLoop]
  | succ f ih =>
    by_cases h : s.stopped = true
    · rw [runLoop_stopped c su camera _ s h, runLoop_stopped c su camera _ s h]
      simp [h]
    · have step : ∀ g, runLoop c su camera (g + 1) s
          = runLoop c su camera g (loopBody c su camera s) := by
        intro g
        simp [runLoop, h]
      rw [step (f + 1), step f]
      exact ih (loopBody c su camera s)

theorem runLoop_add (c : Collaborators) (su : Setup) (camera : Camera) (a b : Nat)
    (s : LoopState) (h : (runLoop c su camera a s).stopped = true) :
    runLoop c su camera (a + b) s = runLoop c su camera a s := by
  induction b with
  | zero => rfl
  | succ b ih =>
    rw [← Nat.add_assoc, runLoop_succ, ih]
    simp [h]

/-- After `p` passes whose tested captures all succeeded the loop is still running,
`frame` is `p` (as a `size_t`), `p * (k + 1)` calls were made and the log is the
concatenation of the logs of the passes. -/
theorem runLoop_running (c : Collaborators) (su : Setup) (camera : Camera) (p : Nat)
    (h : ∀ i, i < p → (camera.Capture (keptCall su i)).isSome = true) :
    runLoop c su camera p LoopState.init =
      ⟨p % 2 ^ 64, p * (su.skip_frames.toNat + 1),
        (List.range p).flatMap (passLog c su camera), false⟩ := by
  induction p with
  | zero => simp [runLoop, LoopState.init]
  | succ p ih =>
    have hp := ih (fun i hi => h i (Nat.lt_succ_of_lt hi))
    have hk := h p (Nat.lt_succ_self p)
    rw [runLoop_succ, hp]
    obtain ⟨images, himg⟩ := Option.isSome_iff_exists.mp hk
    have himg2 : camera.Capture (p * (su.skip_frames.toNat + 1) + su.skip_frames.toNat)
        = some images := himg
    simp only [loopBody, himg2, List.range_succ, List.flatMap_append, List.flatMap_singleton,
      passLog, keptCall, Bool.false_eq_true, if_false]
    rw [LoopState.mk.injEq]
    exact ⟨by omega, by ring, by simp [List.append_assoc], rfl⟩

/-- When pass `n` is the first whose tested capture fails, the loop has stopped
after `n + 1` passes: `frame` is `n`, and the log is that of passes `0 .. n`. -/
theorem runLoop_stops (c : Collaborators) (su : Setup) (camera : Camera) (n : Nat)
    (h : ∀ i, i < n → (camera.Capture (keptCall su i)).isSome = true)
    (hfail : camera.Capture (keptCall su n) = none) (fuel : Nat) (hfuel : n + 1 ≤ fuel) :
    runLoop c su camera fuel LoopState.init =
      ⟨n % 2 ^ 64, (n + 1) * (su.skip_frames.toNat + 1),
        (List.range (n + 1)).flatMap (passLog c su camera), true⟩ := by
  have hfail2 : camera.Capture (n * (su.skip_frames.toNat + 1) + su.skip_frames.toNat)
      = none := hfail
  have key : runLoop c su camera (n + 1) LoopState.init =
      ⟨n % 2 ^ 64, (n + 1) * (su.skip_frames.toNat + 1),
        (List.range (n + 1)).flatMap (passLog c su camera), true⟩ := by
    rw [runLoop_succ, runLoop_running c su camera n h]
    simp only [loopBody, hfail2, List.range_succ, List.flatMap_append, List.flatMap_singleton,
      passLog, keptCall, Bool.false_eq_true, if_false]
    rw [LoopState.mk.injEq]
    exact ⟨rfl, by ring, by simp [List.append_assoc], rfl⟩
  obtain ⟨d, rfl⟩ := Nat.exists_eq_add_of_le hfuel
  rw [runLoop_add c su camera (n + 1) d _ (by rw [key]), key]


/-! ## Decimal rendering -/

theorem decimalAux_fuel (f g n : Nat) (hf : n < f) (hg : n < g) :
    decimalAux f n = decimalAux g n := by
  induction f generalizing g n with
  | zero => omega
  | succ f ih =>
    cases g with
    | zero => omega
    | succ g =>
      by_cases h : n < 10
      · simp [decimalAux, h]
      · simp only [decimalAux, h, if_false]
        rw [ih g (n / 10) (by omega) (by omega)]

theorem decimal_lt_ten (n : Nat) (h : n < 10) : decimal n = [digitChar n] := by
  simp [decimal, decimalAux, h]

theorem decimal_ge_ten (n : Nat) (h : 10 ≤ n) :
    decimal n = decimal (n / 10) ++ [digitChar (n % 10)] := by
  have h' : ¬ n < 10 := by omega
  have step : decimalAux (n + 1) n = decimalAux n (n / 10) ++ [digitChar (n % 10)] := by
    simp only [decimalAux, h', if_false]
  unfold decimal
  rw [step, decimalAux_fuel n (n / 10 + 1) (n / 10) (by omega) (by omega)]

theorem digitChar_eq_core : ∀ d, d < 10 → Nat.digitChar d = digitChar d := by decide

/-- The rendering `decimal` is the one of the core library (`Nat.toDigits 10`,
which `toString` on `Nat` uses). -/
theorem toDigitsCore_eq_decimal (f n : Nat) (ds : List Char) (h : n < f) :
    Nat.toDigitsCore 10 f n ds = decimal n ++ ds := by
  induction f generalizing n ds with
  | zero => omega
  | succ f ih =>
    by_cases hn : n < 10
    · have h0 : n / 10 = 0 := by omega
      have h1 : n % 10 = n := by omega
      simp [Nat.toDigitsCore, h0, h1, decimal_lt_ten n hn, digitChar_eq_core n hn]
    · have h0 : ¬ n / 10 = 0 := by omega
      simp only [Nat.toDigitsCore, h0, if_false]
      rw [ih (n / 10) _ (by omega), decimal_ge_ten n (by omega),
        digitChar_eq_core (n % 10) (by omega)]
      simp

theorem toString_eq_decimal (n : Nat) : toString n = String.mk (decimal n) := by
  show Nat.repr n = _
  simp [Nat.repr, Nat.toDigits, toDigitsCore_eq_decimal, List.asString]

theorem decimal_length_pos (n : Nat) : 0 < (decimal n).length := by
  by_cases h : n < 10
  · simp [decimal_lt_ten n h]
  · rw [decimal_ge_ten n (by omega)]
    simp

/-! ## File names of a run with counter naming -/

theorem toInt32_of_lt (n : Nat) (h : n < 2 ^ 31) : toInt32 n = (n : Int) := by
  unfold toInt32
  have h1 : n % 2 ^ 32 = n := Nat.mod_eq_of_lt (by omega)
  rw [h1, if_pos h]

theorem fmt05d_natCast (n : Nat) : fmt05d (n : Int) = padZeros 5 (decimal n) := by
  unfold fmt05d
  have h : ¬ ((n : Int) < 0) := by omega
  rw [if_neg h, Int.toNat_ofNat]

theorem string_mk_append (a b : List Char) : String.mk (a ++ b) = String.mk a ++ String.mk b :=
  rfl

theorem zeroPadded5_eq (i : Nat) : zeroPadded5 i = String.mk (padZeros 5 (decimal i)) := by
  unfold zeroPadded5 padZeros
  rw [toString_eq_decimal, string_mk_append]
  rfl

theorem fileNames_append (a b : List Event) :
    fileNames (a ++ b) = fileNames a ++ fileNames b := by
  induction a with
  | nil => rfl
  | cons e a ih => cases e <;> simp [fileNames, ih]

theorem fileNames_flatMap (f : Nat → List Event) (n : Nat) :
    fileNames ((List.range n).flatMap f) = (List.range n).flatMap (fun i => fileNames (f i)) := by
  induction n with
  | zero => rfl
  | succ n ih =>
    simp only [List.range_succ, List.flatMap_append, List.flatMap_singleton, fileNames_append, ih]

theorem fileNames_skipEvents (k : Int) (calls : Nat) : fileNames (skipEvents k calls) = [] := by
  unfold skipEvents
  induction (List.range k.toNat) with
  | nil => rfl
  | cons a l ih => simpa [fileNames] using ih

/-- File names written by a pass: none when the tested capture fails, otherwise
the depth file and the grey file named after the index of the frame. -/
theorem fileNames_passLog (c : Collaborators) (su : Setup) (camera : Camera) (i : Nat) :
    fileNames (passLog c su camera i) =
      match camera.Capture (keptCall su i) with
      | none => []
      | some images =>
        [DepthFile (frameIndex su.export_time images.SystemTime (i % 2 ^ 64)),
         GreyFile (frameIndex su.export_time images.SystemTime (i % 2 ^ 64))] := by
  unfold passLog
  rw [fileNames_append, fileNames_skipEvents]
  cases camera.Capture (keptCall su i) with
  | none => rfl
  | some images => rfl

theorem flatMap_range_congr {α : Type} (f g : Nat → List α) (n : Nat)
    (h : ∀ i, i < n → f i = g i) : (List.range n).flatMap f = (List.range n).flatMap g := by
  induction n with
  | zero => rfl
  | succ n ih =>
    simp only [List.range_succ, List.flatMap_append, List.flatMap_singleton]
    rw [ih (fun i hi => h i (Nat.lt_succ_of_lt hi)), h n (Nat.lt_succ_self n)]

/-- With counter naming and no skipping, a run over `n` good captures followed by
a failed one writes, for each `i < n` in turn, the two files indexed by
`%05d` of `static_cast<int>(i)`. -/
theorem counter_run_names (c : Collaborators) (su : Setup) (camera : Camera) (n fuel : Nat)
    (hskip : su.skip_frames = 0) (hname : su.export_time = false)
    (hok : ∀ k, k < n → (camera.Capture k).isSome = true) (hend : camera.Capture n = none)
    (hfuel : n + 1 ≤ fuel) :
    (mainLoop c su camera fuel).status = Status.exited 0 ∧
    fileNames (mainLoop c su camera fuel).log =
      (List.range n).flatMap (fun i =>
        [DepthFile (fmt05d (toInt32 (i % 2 ^ 64))), GreyFile (fmt05d (toInt32 (i % 2 ^ 64)))]) := by
  have hkept : ∀ i, keptCall su i = i := by
    intro i
    simp [keptCall, hskip]
  have hrun := runLoop_stops c su camera n (fun i hi => by rw [hkept]; exact hok i hi)
    (by rw [hkept]; exact hend) fuel hfuel
  unfold mainLoop
  rw [hrun]
  refine ⟨rfl, ?_⟩
  simp only [List.range_succ n, List.flatMap_append, List.flatMap_singleton]
  rw [fileNames_append, fileNames_flatMap, fileNames_passLog c su camera n, hkept, hend,
    List.append_nil]
  apply flatMap_range_congr
  intro i hi
  rw [fileNames_passLog, hkept]
  obtain ⟨images, himg⟩ := Option.isSome_iff_exists.mp (hok i hi)
  rw [himg]
  simp [frameIndex, hname]

theorem main_eq_mainLoop (c : Collaborators) (args : Args) (camera : Camera) (rig : Rig)
    (cam0 cam1 : CameraModel) (fuel : Nat) (hrig : resolveRig c args camera = Except.ok rig)
    (hcams : rig.cameras_ = [cam0, cam1]) :
    main c args camera fuel = mainLoop c (setupOf c args camera cam0 cam1) camera fuel := by
  unfold main
  rw [hrig]
  simp only [hcams]

/-- C1 (amended): for every `n ≤ 2^31`, when the camera delivers `n` captures and
then reports failure, with `skip_frames = 0` and counter naming, the program
writes exactly `n` pairs of files, the pair of frame `i` being
`ELAS-<i zero-padded to 5 digits>.pdm` and `Grey-<same index>.pgm`, in frame
order, and leaves with exit code 0. -/
theorem main_counter_pairs (c : Collaborators) (args : Args) (camera : Camera) (rig : Rig)
    (cam0 cam1 : CameraModel) (n fuel : Nat)
    (hskip : args.skip_frames = 0) (hname : args.export_time = false)
    (hrig : resolveRig c args camera = Except.ok rig) (hcams : rig.cameras_ = [cam0, cam1])
    (hok : ∀ k, k < n → (camera.Capture k).isSome = true) (hend : camera.Capture n = none)
    (hn : n ≤ 2 ^ 31) (hfuel : n + 1 ≤ fuel) :
    (main c args camera fuel).status = Status.exited 0 ∧
    fileNames (main c args camera fuel).log =
      (List.range n).flatMap (fun i =>
        ["ELAS-" ++ zeroPadded5 i ++ ".pdm", "Grey-" ++ zeroPadded5 i ++ ".pgm"]) := by
  rw [main_eq_mainLoop c args camera rig cam0 cam1 fuel hrig hcams]
  obtain ⟨h1, h2⟩ := counter_run_names c (setupOf c args camera cam0 cam1) camera n fuel
    hskip hname hok hend hfuel
  refine ⟨h1, ?_⟩
  rw [h2]
  apply flatMap_range_congr
  intro i hi
  have hi64 : i % 2 ^ 64 = i := Nat.mod_eq_of_lt (by omega)
  rw [hi64, toInt32_of_lt i (by omega), fmt05d_natCast, zeroPadded5_eq]
  rfl

theorem main_counter_pairs_witness :
    (main sampleCollaborators (counterArgs 0) (countingCamera 3) 4).status = Status.exited 0 ∧
    fileNames (main sampleCollaborators (counterArgs 0) (countingCamera 3) 4).log =
      ["ELAS-00000.pdm", "Grey-00000.pgm", "ELAS-00001.pdm", "Grey-00001.pgm",
       "ELAS-00002.pdm", "Grey-00002.pgm"] := by
  have h := main_counter_pairs sampleCollaborators (counterArgs 0) (countingCamera 3) sampleRig
    sampleCam0 sampleCam1 3 4 rfl rfl rfl rfl (by decide) rfl (by decide) (by decide)
  refine ⟨h.1, ?_⟩
  rw [h.2]
  decide

theorem flatMap_pairs_pointwise {α : Type} (f g f' g' : Nat → α) (n : Nat)
    (h : (List.range n).flatMap (fun i => [f i, g i])
      = (List.range n).flatMap (fun i => [f' i, g' i])) :
    ∀ i, i < n → f i = f' i ∧ g i = g' i := by
  induction n with
  | zero => intro i hi; omega
  | succ n ih =>
    simp only [List.range_succ, List.flatMap_append, List.flatMap_singleton] at h
    obtain ⟨h1, h2⟩ := List.append_inj' h rfl
    intro i hi
    by_cases hin : i < n
    · exact ih h1 i hin
    · have : i = n := by omega
      subst this
      simpa using h2

/-- C1 as stated fails: with `2^31 + 1` good captures the frame number `2^31` passes
through `static_cast<int>` as `-2147483648`, so the file names of that frame are
not the zero-padded decimal of the frame number. -/
theorem main_counter_pairs_fails_past_int_max :
    ¬ (fileNames (main sampleCollaborators (counterArgs 0) (countingCamera (2 ^ 31 + 1))
          (2 ^ 31 + 2)).log =
        (List.range (2 ^ 31 + 1)).flatMap (fun i =>
          ["ELAS-" ++ zeroPadded5 i ++ ".pdm", "Grey-" ++ zeroPadded5 i ++ ".pgm"])) := by
  intro h
  have hmain := main_eq_mainLoop sampleCollaborators (counterArgs 0) (countingCamera (2 ^ 31 + 1))
    sampleRig sampleCam0 sampleCam1 (2 ^ 31 + 2) rfl rfl
  have hrun := (counter_run_names sampleCollaborators
    (setupOf sampleCollaborators (counterArgs 0) (countingCamera (2 ^ 31 + 1)) sampleCam0 sampleCam1)
    (countingCamera (2 ^ 31 + 1))
    (2 ^ 31 + 1) (2 ^ 31 + 2) rfl rfl
    (fun k hk => by
      show (if k < 2 ^ 31 + 1 then some (sampleFrame 0) else none).isSome = true
      rw [if_pos hk]
      rfl)
    (by
      show (if 2 ^ 31 + 1 < 2 ^ 31 + 1 then some (sampleFrame 0) else none) = none
      rw [if_neg (Nat.lt_irrefl _)])
    (Nat.le_refl _)).2
  rw [hmain, hrun] at h
  have hpt := (flatMap_pairs_pointwise _ _ _ _ _ h (2 ^ 31) (by omega)).1
  revert hpt
  decide

/-! ## Skipping and stopping -/

theorem passLog_of_some (c : Collaborators) (su : Setup) (camera : Camera) (i K : Nat)
    (images : StereoFrame) (hK : su.skip_frames = (K : Int))
    (h : camera.Capture (i * (K + 1) + K) = some images) :
    passLog c su camera i =
      (List.range K).map (fun ii => Event.skipCapture (i * (K + 1) + ii)) ++
        Event.keptCapture (i * (K + 1) + K) true :: exportFrame c su (i % 2 ^ 64) images := by
  have hk : su.skip_frames.toNat = K := by rw [hK]; rfl
  unfold passLog keptCall skipEvents
  rw [hk, h]

theorem processedCalls_append (a b : List Event) :
    processedCalls (a ++ b) = processedCalls a ++ processedCalls b := by
  induction a with
  | nil => rfl
  | cons e a ih =>
    cases e with
    | keptCapture call ok => cases ok <;> simp [processedCalls, ih]
    | skipCapture call => simp [processedCalls, ih]
    | depthFile name bytes => simp [processedCalls, ih]
    | greyFile name image => simp [processedCalls, ih]

theorem processedCalls_skips (K base : Nat) :
    processedCalls ((List.range K).map (fun ii => Event.skipCapture (base + ii))) = [] := by
  induction (List.range K) with
  | nil => rfl
  | cons a l ih => simpa [processedCalls] using ih

theorem processedCalls_flatMap (f : Nat → List Event) (g : Nat → Nat) (p : Nat)
    (h : ∀ j, j < p → processedCalls (f j) = [g j]) :
    processedCalls ((List.range p).flatMap f) = (List.range p).map g := by
  induction p with
  | zero => rfl
  | succ p ih =>
    simp only [List.range_succ, List.flatMap_append, List.flatMap_singleton, List.map_append,
      List.map_singleton, processedCalls_append]
    rw [ih (fun j hj => h j (Nat.lt_succ_of_lt hj)), h p (Nat.lt_succ_self p)]

/-- C2 (amended): for every skip count `K ≥ 0` and every capture stream, as long as
the tested captures succeed, pass `j` makes exactly `K` discarded captures (calls
`j*(K+1) .. j*(K+1)+K-1`) and then processes and exports the capture at position
`j*(K+1)+K` of the stream, so exactly `K` captures are discarded between two
processed frames. -/
theorem skip_count_between_processed (c : Collaborators) (su : Setup) (camera : Camera)
    (K p : Nat) (img : Nat → StereoFrame) (hK : su.skip_frames = (K : Int))
    (hok : ∀ j, j < p → camera.Capture (j * (K + 1) + K) = some (img j)) :
    (mainLoop c su camera p).log =
      (List.range p).flatMap (fun j =>
        (List.range K).map (fun ii => Event.skipCapture (j * (K + 1) + ii)) ++
          Event.keptCapture (j * (K + 1) + K) true :: exportFrame c su (j % 2 ^ 64) (img j)) ∧
    processedCalls (mainLoop c su camera p).log = (List.range p).map (fun j => j * (K + 1) + K) := by
  have hk : su.skip_frames.toNat = K := by rw [hK]; rfl
  have hrun := runLoop_running c su camera p (fun i hi => by
    unfold keptCall
    rw [hk, hok i hi]
    rfl)
  have hlog : (mainLoop c su camera p).log =
      (List.range p).flatMap (fun j =>
        (List.range K).map (fun ii => Event.skipCapture (j * (K + 1) + ii)) ++
          Event.keptCapture (j * (K + 1) + K) true :: exportFrame c su (j % 2 ^ 64) (img j)) := by
    unfold mainLoop
    rw [hrun]
    exact flatMap_range_congr _ _ p
      (fun i hi => passLog_of_some c su camera i K (img i) hK (hok i hi))
  refine ⟨hlog, ?_⟩
  rw [hlog]
  apply processedCalls_flatMap
  intro j _
  rw [processedCalls_append, processedCalls_skips]
  simp [processedCalls, exportFrame]

theorem skip_count_between_processed_witness :
    (mainLoop sampleCollaborators (setupOf sampleCollaborators (counterArgs 2) (countingCamera 6) sampleCam0 sampleCam1)
        (countingCamera 6) 2).log =
      [Event.skipCapture 0, Event.skipCapture 1, Event.keptCapture 2 true,
       Event.depthFile "ELAS-00000.pdm"
         [80, 55, 10, 49, 32, 49, 10, 52, 50, 57, 52, 57, 54, 55, 50, 57, 53, 10, 7, 0, 0, 0],
       Event.greyFile "Grey-00000.pgm" [7],
       Event.skipCapture 3, Event.skipCapture 4, Event.keptCapture 5 true,
       Event.depthFile "ELAS-00001.pdm"
         [80, 55, 10, 49, 32, 49, 10, 52, 50, 57, 52, 57, 54, 55, 50, 57, 53, 10, 7, 0, 0, 0],
       Event.greyFile "Grey-00001.pgm" [7]] ∧
    processedCalls (mainLoop sampleCollaborators
        (setupOf sampleCollaborators (counterArgs 2) (countingCamera 6) sampleCam0 sampleCam1)
        (countingCamera 6) 2).log = [2, 5] := by
  have h := skip_count_between_processed sampleCollaborators
    (setupOf sampleCollaborators (counterArgs 2) (countingCamera 6) sampleCam0 sampleCam1) (countingCamera 6) 2 2
    (fun _ => sampleFrame 0) rfl (by decide)
  refine ⟨h.1.trans (by decide), h.2.trans (by decide)⟩

/-- C2 as stated fails for a negative configured count: with `-skip_frames -1`
the processed captures are the calls 0 and 1, not the positions `j*(K+1)+K = -1`. -/
theorem skip_count_negative_counterexample :
    processedCalls (main sampleCollaborators (counterArgs (-1)) (countingCamera 2) 3).log
      = [0, 1] ∧
    ¬ ((processedCalls (main sampleCollaborators (counterArgs (-1)) (countingCamera 2) 3).log).map
          Int.ofNat =
        (List.range 2).map (fun j => (j : Int) * ((-1 : Int) + 1) + (-1 : Int))) := by
  decide

/-- C4 (amended): for every skip count and every capture stream, the loop stops at
the first failure of a tested (kept) capture, whatever the discarded skip captures
reported: once pass `n` is the first whose tested capture fails, every longer run
has exit code 0 and the same log, in which each earlier pass has exported its kept
capture and the failed capture is the last event (no capture or export follows). -/
theorem stops_at_first_failed_kept_capture (c : Collaborators) (su : Setup) (camera : Camera)
    (n fuel : Nat) (img : Nat → StereoFrame)
    (hok : ∀ i, i < n → camera.Capture (keptCall su i) = some (img i))
    (hfail : camera.Capture (keptCall su n) = none) (hfuel : n + 1 ≤ fuel) :
    (mainLoop c su camera fuel).status = Status.exited 0 ∧
    (mainLoop c su camera fuel).log =
      (List.range n).flatMap (fun i =>
        skipEvents su.skip_frames (i * (su.skip_frames.toNat + 1)) ++
          Event.keptCapture (keptCall su i) true :: exportFrame c su (i % 2 ^ 64) (img i))
      ++ skipEvents su.skip_frames (n * (su.skip_frames.toNat + 1))
      ++ [Event.keptCapture (keptCall su n) false] := by
  have hrun := runLoop_stops c su camera n (fun i hi => by rw [hok i hi]; rfl) hfail fuel hfuel
  unfold mainLoop
  rw [hrun]
  refine ⟨rfl, ?_⟩
  simp only [List.range_succ n, List.flatMap_append, List.flatMap_singleton]
  rw [List.append_assoc]
  congr 1
  · exact flatMap_range_congr _ _ n (fun i hi => by
      unfold passLog
      rw [hok i hi])
  · unfold passLog
    rw [hfail]

theorem stops_at_first_failed_kept_capture_witness :
    (mainLoop sampleCollaborators (setupOf sampleCollaborators (counterArgs 1) (countingCamera 2) sampleCam0 sampleCam1)
        (countingCamera 2) 7).status = Status.exited 0 ∧
    (mainLoop sampleCollaborators (setupOf sampleCollaborators (counterArgs 1) (countingCamera 2) sampleCam0 sampleCam1)
        (countingCamera 2) 7).log =
      [Event.skipCapture 0, Event.keptCapture 1 true,
       Event.depthFile "ELAS-00000.pdm"
         [80, 55, 10, 49, 32, 49, 10, 52, 50, 57, 52, 57, 54, 55, 50, 57, 53, 10, 7, 0, 0, 0],
       Event.greyFile "Grey-00000.pgm" [7],
       Event.skipCapture 2, Event.keptCapture 3 false] := by
  have h := stops_at_first_failed_kept_capture sampleCollaborators
    (setupOf sampleCollaborators (counterArgs 1) (countingCamera 2) sampleCam0 sampleCam1) (countingCamera 2) 1 7
    (fun _ => sampleFrame 0) (by decide) (by decide) (by decide)
  refine ⟨h.1, ?_⟩
  rw [h.2]
  decide

/-- C4 as stated fails: with `-skip_frames 1` and a stream whose very first capture
fails, that capture is a discarded skip capture; the loop goes on, makes three more
captures and exports the frame of call 1. -/
theorem failed_skip_capture_counterexample :
    (scriptedCamera [none, some (sampleFrame 0), none, none]).Capture 0 = none ∧
    (main sampleCollaborators (counterArgs 1)
        (scriptedCamera [none, some (sampleFrame 0), none, none]) 5).log =
      [Event.skipCapture 0, Event.keptCapture 1 true,
       Event.depthFile "ELAS-00000.pdm"
         [80, 55, 10, 49, 32, 49, 10, 52, 50, 57, 52, 57, 54, 55, 50, 57, 53, 10, 7, 0, 0, 0],
       Event.greyFile "Grey-00000.pgm" [7],
       Event.skipCapture 2, Event.keptCapture 3 false] := by
  decide

/-! ## Startup -/

theorem loopBody_log (c : Collaborators) (su : Setup) (camera : Camera) (s : LoopState) :
    ∃ m, m ≠ [] ∧ (loopBody c su camera s).log = s.log ++ m := by
  cases h : camera.Capture (s.calls + su.skip_frames.toNat) with
  | none =>
    refine ⟨skipEvents su.skip_frames s.calls
      ++ [Event.keptCapture (s.calls + su.skip_frames.toNat) false], by simp, ?_⟩
    simp only [loopBody, h, List.append_assoc]
  | some images =>
    refine ⟨skipEvents su.skip_frames s.calls
      ++ Event.keptCapture (s.calls + su.skip_frames.toNat) true
        :: exportFrame c su s.frame images, by simp, ?_⟩
    simp only [loopBody, h, List.append_assoc]

theorem runLoop_log_extends (c : Collaborators) (su : Setup) (camera : Camera) (fuel : Nat)
    (s : LoopState) : ∃ l, (runLoop c su camera fuel s).log = s.log ++ l := by
  induction fuel generalizing s with
  | zero => exact ⟨[], by simp [runLoop]⟩
  | succ f ih =>
    by_cases h : s.stopped = true
    · exact ⟨[], by simp [runLoop, h]⟩
    · obtain ⟨l, hl⟩ := ih (loopBody c su camera s)
      obtain ⟨m, _, hm⟩ := loopBody_log c su camera s
      refine ⟨m ++ l, ?_⟩
      simp only [runLoop, h, Bool.false_eq_true, if_false]
      rw [hl, hm, List.append_assoc]

/-- Once the loop is entered its first tested capture is made: the log of any run
of at least one pass is not empty. -/
theorem mainLoop_log_ne_nil (c : Collaborators) (su : Setup) (camera : Camera) (fuel : Nat) :
    (mainLoop c su camera (fuel + 1)).log ≠ [] := by
  unfold mainLoop
  have hstep : runLoop c su camera (fuel + 1) LoopState.init
      = runLoop c su camera fuel (loopBody c su camera LoopState.init) := by
    simp [runLoop, LoopState.init]
  obtain ⟨l, hl⟩ := runLoop_log_extends c su camera fuel (loopBody c su camera LoopState.init)
  obtain ⟨m, hne, hm⟩ := loopBody_log c su camera LoopState.init
  simp only [hstep, hl, hm]
  intro h
  have h2 := List.append_eq_nil.mp h
  have h3 := List.append_eq_nil.mp h2.1
  exact hne h3.2

theorem cameras_of_numCams_two (rig : Rig) (h : rig.NumCams = 2) :
    ∃ cam0 cam1, rig.cameras_ = [cam0, cam1] := by
  unfold Rig.NumCams at h
  cases hc : rig.cameras_ with
  | nil => simp [hc] at h
  | cons a t =>
    cases t with
    | nil => simp [hc] at h
    | cons b u =>
      cases u with
      | nil => exact ⟨a, b, rfl⟩
      | cons d v => simp [hc] at h

theorem main_of_rig (c : Collaborators) (args : Args) (camera : Camera) (rig : Rig)
    (fuel : Nat) (hr : resolveRig c args camera = Except.ok rig) :
    (rig.NumCams ≠ 2 → main c args camera fuel = ⟨Status.exited 1, []⟩) ∧
    (rig.NumCams = 2 →
      ∃ cam0 cam1, rig.cameras_ = [cam0, cam1] ∧
        main c args camera fuel = mainLoop c (setupOf c args camera cam0 cam1) camera fuel ∧
        (main c args camera (fuel + 1)).log ≠ []) := by
  constructor
  · intro hn
    unfold main
    rw [hr]
    unfold Rig.NumCams at hn
    cases hc : rig.cameras_ with
    | nil => simp only [hc]
    | cons a t =>
      cases t with
      | nil => simp only [hc]
      | cons b u =>
        cases u with
        | nil => simp [hc] at hn
        | cons d v => simp only [hc]
  · intro hn
    obtain ⟨cam0, cam1, hc⟩ := cameras_of_numCams_two rig hn
    refine ⟨cam0, cam1, hc, main_eq_mainLoop c args camera rig cam0 cam1 fuel hr hc, ?_⟩
    rw [main_eq_mainLoop c args camera rig cam0 cam1 (fuel + 1) hr hc]
    exact mainLoop_log_ne_nil c _ camera fuel

/-- C5: startup outcome as a function of the rectifying driver, the calibration
path and the camera count of the resolved rig.  Without driver and with an empty
path the process exits with `EXIT_FAILURE`.  Otherwise the rig is resolved: it is
the driver's rig when a driver is attached (whatever the path) and the rig read
from the calibration file when there is none and the path is not empty.  A
resolved rig whose camera count is not 2 exits with code 1.  In both failures the
log is empty for every length of run (no capture, no export).  A resolved rig of
exactly two cameras, from the driver or from the file, enters the loop, which
makes its first capture. -/
theorem startup_outcome (c : Collaborators) (args : Args) (camera : Camera) (fuel : Nat) :
    (camera.rectifyDriver = none → args.cmod = "" →
      main c args camera fuel = ⟨Status.exited c.EXIT_FAILURE, []⟩) ∧
    (∀ rig, camera.rectifyDriver = some rig → resolveRig c args camera = Except.ok rig) ∧
    (camera.rectifyDriver = none → args.cmod ≠ "" →
      resolveRig c args camera = Except.ok (c.ReadXmlRig args.cmod)) ∧
    (∀ rig, camera.rectifyDriver = some rig ∨
        (camera.rectifyDriver = none ∧ args.cmod ≠ "" ∧ c.ReadXmlRig args.cmod = rig) →
      (rig.NumCams ≠ 2 → main c args camera fuel = ⟨Status.exited 1, []⟩) ∧
      (rig.NumCams = 2 →
        ∃ cam0 cam1, rig.cameras_ = [cam0, cam1] ∧
          main c args camera fuel = mainLoop c (setupOf c args camera cam0 cam1) camera fuel ∧
          (main c args camera (fuel + 1)).log ≠ [])) := by
  have hdriver : ∀ rig, camera.rectifyDriver = some rig →
      resolveRig c args camera = Except.ok rig := by
    intro rig hd
    simp [resolveRig, hd]
  have hfile : camera.rectifyDriver = none → args.cmod ≠ "" →
      resolveRig c args camera = Except.ok (c.ReadXmlRig args.cmod) := by
    intro hd hc
    simp [resolveRig, hd, hc]
  refine ⟨?_, hdriver, hfile, ?_⟩
  · intro hd hc
    simp [main, resolveRig, hd, hc]
  · intro rig hsrc
    have hr : resolveRig c args camera = Except.ok rig := by
      rcases hsrc with hd | ⟨hd, hc, hread⟩
      · exact hdriver rig hd
      · rw [← hread]
        exact hfile hd hc
    exact main_of_rig c args camera rig fuel hr

theorem startup_outcome_witness :
    main sampleCollaborators (fileArgs "") (plainCamera 1) 9 = ⟨Status.exited 1, []⟩ ∧
    main sampleCollaborators (fileArgs "none.xml") (plainCamera 1) 9 = ⟨Status.exited 1, []⟩ ∧
    resolveRig sampleCollaborators (fileArgs "") (countingCamera 3) = Except.ok sampleRig ∧
    resolveRig sampleCollaborators (fileArgs "rig.xml") (plainCamera 1) = Except.ok sampleRig ∧
    (∃ cam0 cam1, sampleRig.cameras_ = [cam0, cam1] ∧
      main sampleCollaborators (fileArgs "") (countingCamera 3) 9 =
        mainLoop sampleCollaborators
          (setupOf sampleCollaborators (fileArgs "") (countingCamera 3) cam0 cam1)
          (countingCamera 3) 9 ∧
      (main sampleCollaborators (fileArgs "") (countingCamera 3) (9 + 1)).log ≠ []) ∧
    (∃ cam0 cam1, sampleRig.cameras_ = [cam0, cam1] ∧
      main sampleCollaborators (fileArgs "rig.xml") (plainCamera 1) 9 =
        mainLoop sampleCollaborators
          (setupOf sampleCollaborators (fileArgs "rig.xml") (plainCamera 1) cam0 cam1)
          (plainCamera 1) 9 ∧
      (main sampleCollaborators (fileArgs "rig.xml") (plainCamera 1) (9 + 1)).log ≠ []) ∧
    (main sampleCollaborators (fileArgs "rig.xml") (plainCamera 1) 9).log =
      [Event.keptCapture 0 true,
       Event.depthFile "ELAS-00000.pdm"
         [80, 55, 10, 49, 32, 49, 10, 52, 50, 57, 52, 57, 54, 55, 50, 57, 53, 10, 7, 0, 0, 0],
       Event.greyFile "Grey-00000.pgm" [7],
       Event.keptCapture 1 false] :=
  ⟨(startup_outcome sampleCollaborators (fileArgs "") (plainCamera 1) 9).1 rfl rfl,
   ((startup_outcome sampleCollaborators (fileArgs "none.xml") (plainCamera 1) 9).2.2.2 ⟨[]⟩
     (Or.inr ⟨rfl, by decide, by decide⟩)).1 (by decide),
   (startup_outcome sampleCollaborators (fileArgs "") (countingCamera 3) 9).2.1 sampleRig rfl,
   (startup_outcome sampleCollaborators (fileArgs "rig.xml") (plainCamera 1) 9).2.2.1 rfl
     (by decide),
   ((startup_outcome sampleCollaborators (fileArgs "") (countingCamera 3) 9).2.2.2 sampleRig
     (Or.inl rfl)).2 rfl,
   ((startup_outcome sampleCollaborators (fileArgs "rig.xml") (plainCamera 1) 9).2.2.2 sampleRig
     (Or.inr ⟨rfl, by decide, by decide⟩)).2 rfl,
   by decide⟩

/-! ## Digits: reading back, fixed width, order -/

theorem digitValue_digitChar : ∀ d, d < 10 → digitValue (digitChar d) = d := by decide

theorem digitChar_isDigit (d : Nat) : (digitChar d).isDigit = true := by
  unfold digitChar
  split <;> decide

theorem digitChar_lt : ∀ a, a < 10 → ∀ b, b < 10 → a < b → digitChar a < digitChar b := by
  decide

theorem readDecimal_snoc (s : List Char) (ch : Char) :
    readDecimal (s ++ [ch]) = 10 * readDecimal s + digitValue ch := by
  simp [readDecimal, List.foldl_append]

theorem readDecimal_decimal (n : Nat) : readDecimal (decimal n) = n := by
  induction n using Nat.strong_induction_on with
  | _ n ih =>
    by_cases h : n < 10
    · rw [decimal_lt_ten n h]
      simp [readDecimal, digitValue_digitChar n h]
    · rw [decimal_ge_ten n (by omega), readDecimal_snoc, ih (n / 10) (by omega),
        digitValue_digitChar (n % 10) (by omega)]
      omega

theorem decimal_isDigit (n : Nat) : ∀ ch, ch ∈ decimal n → ch.isDigit = true := by
  induction n using Nat.strong_induction_on with
  | _ n ih =>
    intro ch hch
    by_cases h : n < 10
    · rw [decimal_lt_ten n h] at hch
      rw [List.mem_singleton.mp hch]
      exact digitChar_isDigit n
    · rw [decimal_ge_ten n (by omega)] at hch
      rcases List.mem_append.mp hch with h1 | h1
      · exact ih (n / 10) (by omega) ch h1
      · rw [List.mem_singleton.mp h1]
        exact digitChar_isDigit _

theorem padZeros_isDigit (w n : Nat) : ∀ ch, ch ∈ padZeros w (decimal n) → ch.isDigit = true := by
  intro ch hch
  unfold padZeros at hch
  rcases List.mem_append.mp hch with h1 | h1
  · rw [(List.mem_replicate.mp h1).2]
    rfl
  · exact decimal_isDigit n ch h1

theorem padZeros_ne_nil (w n : Nat) : padZeros w (decimal n) ≠ [] := by
  unfold padZeros
  intro h
  have := (List.append_eq_nil.mp h).2
  have hp := decimal_length_pos n
  rw [this] at hp
  exact Nat.lt_irrefl _ hp

theorem fixedDigits_length (w n : Nat) : (fixedDigits w n).length = w := by
  induction w generalizing n with
  | zero => rfl
  | succ w ih => simp [fixedDigits, ih]

theorem fixedDigits_zero (w : Nat) : fixedDigits w 0 = List.replicate w '0' := by
  induction w with
  | zero => rfl
  | succ w ih =>
    show fixedDigits w (0 / 10) ++ [digitChar (0 % 10)] = _
    rw [Nat.zero_div, ih, List.replicate_succ']
    rfl

/-- Below `10^(w+1)` zero padding to width `w+1` yields exactly the `w+1` digits. -/
theorem padZeros_decimal (w n : Nat) (h : n < 10 ^ (w + 1)) :
    padZeros (w + 1) (decimal n) = fixedDigits (w + 1) n := by
  induction w generalizing n with
  | zero =>
    have hn : n < 10 := by simpa using h
    have hm : n % 10 = n := by omega
    simp [padZeros, decimal_lt_ten n hn, fixedDigits, hm]
  | succ w ih =>
    by_cases hn : n < 10
    · have hm : n % 10 = n := by omega
      have hd : n / 10 = 0 := by omega
      show _ = fixedDigits (w + 1) (n / 10) ++ [digitChar (n % 10)]
      rw [hd, hm, fixedDigits_zero, decimal_lt_ten n hn]
      simp [padZeros]
    · have hlt : n / 10 < 10 ^ (w + 1) := by
        rw [Nat.div_lt_iff_lt_mul (by decide)]
        calc n < 10 ^ (w + 1 + 1) := h
          _ = 10 ^ (w + 1) * 10 := by rw [Nat.pow_succ]
      show _ = fixedDigits (w + 1) (n / 10) ++ [digitChar (n % 10)]
      rw [← ih (n / 10) hlt, decimal_ge_ten n (by omega)]
      unfold padZeros
      rw [List.length_append, List.length_singleton, ← List.append_assoc]
      have : w + 1 + 1 - ((decimal (n / 10)).length + 1) = w + 1 - (decimal (n / 10)).length := by
        omega
      rw [this]

theorem decimal_length_le (w n : Nat) (h : n < 10 ^ (w + 1)) : (decimal n).length ≤ w + 1 := by
  have h1 := congrArg List.length (padZeros_decimal w n h)
  rw [fixedDigits_length] at h1
  unfold padZeros at h1
  rw [List.length_append, List.length_replicate] at h1
  omega

theorem lex_append_of_length_eq {a b : List Char} (s t : List Char)
    (h : List.Lex (fun x y => x < y) a b) (hl : a.length = b.length) :
    List.Lex (fun x y => x < y) (a ++ s) (b ++ t) := by
  induction h with
  | nil => simp at hl
  | cons _ ih => exact List.Lex.cons (ih (by simpa using hl))
  | rel hr => exact List.Lex.rel hr

/-- Numbers of the same fixed width are ordered like their digit texts. -/
theorem fixedDigits_lex (w i j : Nat) (hij : i < j) (hj : j < 10 ^ w) :
    List.Lex (fun x y => x < y) (fixedDigits w i) (fixedDigits w j) := by
  induction w generalizing i j with
  | zero =>
    simp at hj
    omega
  | succ w ih =>
    show List.Lex _ (fixedDigits w (i / 10) ++ [digitChar (i % 10)])
      (fixedDigits w (j / 10) ++ [digitChar (j % 10)])
    have hj10 : j / 10 < 10 ^ w := by
      rw [Nat.div_lt_iff_lt_mul (by decide)]
      calc j < 10 ^ (w + 1) := hj
        _ = 10 ^ w * 10 := by rw [Nat.pow_succ]
    by_cases hq : i / 10 < j / 10
    · exact lex_append_of_length_eq _ _ (ih (i / 10) (j / 10) hq hj10)
        (by rw [fixedDigits_length, fixedDigits_length])
    · have heq : i / 10 = j / 10 := by omega
      rw [heq]
      apply List.Lex.append_left
      exact List.Lex.rel (digitChar_lt _ (by omega) _ (by omega) (by omega))

theorem string_lt_of_lex (p s : String) (a b : List Char)
    (h : List.Lex (fun x y => x < y) a b) (hl : a.length = b.length) :
    p ++ String.mk a ++ s < p ++ String.mk b ++ s := by
  rw [String.lt_iff_toList_lt]
  show List.Lex (fun x y => x < y) _ _
  simp only [String.toList, String.data_append]
  rw [List.append_assoc, List.append_assoc]
  exact List.Lex.append_left _ (lex_append_of_length_eq _ _ h hl) _

/-- C7 (amended): with counter naming, for every `N ≤ 100000` and frames
`i < j < N`, the index of each of the two frames is the decimal value of its
number zero-padded to exactly 5 digits, and the file names are strictly increasing
as strings. -/
theorem counter_names_increasing (t1 t2 : Double) (i j : Nat) (hij : i < j) (hj : j < 100000) :
    String.mk (frameIndex false t1 i) = zeroPadded5 i ∧
    (frameIndex false t1 i).length = 5 ∧
    DepthFile (frameIndex false t1 i) < DepthFile (frameIndex false t2 j) ∧
    GreyFile (frameIndex false t1 i) < GreyFile (frameIndex false t2 j) ∧
    String.mk (frameIndex false t2 j) = zeroPadded5 j ∧
    (frameIndex false t2 j).length = 5 := by
  have hi5 : i < 10 ^ (4 + 1) := by norm_num; omega
  have hj5 : j < 10 ^ (4 + 1) := by norm_num; omega
  have hidx : ∀ n, n < 10 ^ (4 + 1) → frameIndex false t1 n = fixedDigits 5 n := by
    intro n hn
    have hn31 : n < 2 ^ 31 := by
      have : (10 : Nat) ^ (4 + 1) < 2 ^ 31 := by norm_num
      omega
    show fmt05d (toInt32 n) = _
    rw [toInt32_of_lt n hn31, fmt05d_natCast, padZeros_decimal 4 n hn]
  have hidx2 : frameIndex false t2 j = frameIndex false t1 j := rfl
  have hlex := fixedDigits_lex 5 i j hij hj5
  have hlen : (fixedDigits 5 i).length = (fixedDigits 5 j).length := by
    rw [fixedDigits_length, fixedDigits_length]
  refine ⟨?_, ?_, ?_, ?_, ?_, ?_⟩
  · rw [zeroPadded5_eq, hidx i hi5, padZeros_decimal 4 i hi5]
  · rw [hidx i hi5, fixedDigits_length]
  · rw [hidx2, hidx i hi5, hidx j hj5]
    exact string_lt_of_lex "ELAS-" ".pdm" _ _ hlex hlen
  · rw [hidx2, hidx i hi5, hidx j hj5]
    exact string_lt_of_lex "Grey-" ".pgm" _ _ hlex hlen
  · rw [hidx2, zeroPadded5_eq, hidx j hj5, padZeros_decimal 4 j hj5]
  · rw [hidx2, hidx j hj5, fixedDigits_length]

theorem counter_names_increasing_witness :
    String.mk (frameIndex false 0 41) = "00041" ∧
    (frameIndex false 0 41).length = 5 ∧
    DepthFile (frameIndex false 0 41) < DepthFile (frameIndex false 0 42) ∧
    GreyFile (frameIndex false 0 41) < GreyFile (frameIndex false 0 42) ∧
    String.mk (frameIndex false 0 42) = "00042" ∧
    (frameIndex false 0 42).length = 5 := by
  have h := counter_names_increasing 0 0 41 42 (by decide) (by decide)
  exact ⟨h.1.trans (by decide), h.2.1, h.2.2.1, h.2.2.2.1, h.2.2.2.2.1.trans (by decide),
    h.2.2.2.2.2⟩

/-- C7 as stated fails from `N = 100001` on: frame 100000 gets a six-digit index
and its file name sorts before the one of frame 99999. -/
theorem counter_names_order_counterexample :
    String.mk (frameIndex false 0 100000) = "100000" ∧
    DepthFile (frameIndex false 0 100000) = "ELAS-100000.pdm" ∧
    DepthFile (frameIndex false 0 99999) = "ELAS-99999.pdm" ∧
    ¬ (DepthFile (frameIndex false 0 99999) < DepthFile (frameIndex false 0 100000)) := by
  refine ⟨by decide, by decide, by decide, ?_⟩
  rw [String.lt_iff_toList_lt]
  decide

/-! ## File names determine the index -/

theorem frameIndex_counter (t : Double) (n : Nat) : frameIndex false t n = fmt05d (toInt32 n) := by
  simp [frameIndex]

theorem frameIndex_time (t : Double) (n : Nat) : frameIndex true t n = fmt015_10f t := by
  simp [frameIndex]

/-! ## The timestamp index `%015.10f` -/

theorem decimal_length_ge (w n : Nat) (h : 10 ^ w ≤ n) : w + 1 ≤ (decimal n).length := by
  induction w generalizing n with
  | zero => exact decimal_length_pos n
  | succ w ih =>
    have h10 : 10 ≤ n := by
      have : 10 ^ 1 ≤ 10 ^ (w + 1) := Nat.pow_le_pow_right (by decide) (by omega)
      omega
    have hdiv : 10 ^ w ≤ n / 10 := by
      rw [Nat.le_div_iff_mul_le (by decide)]
      calc 10 ^ w * 10 = 10 ^ (w + 1) := by rw [Nat.pow_succ]
        _ ≤ n := h
    rw [decimal_ge_ten n h10, List.length_append, List.length_singleton]
    have := ih (n / 10) hdiv
    omega

theorem padZeros_length_ge (w : Nat) (s : List Char) : w ≤ (padZeros w s).length := by
  unfold padZeros
  rw [List.length_append, List.length_replicate]
  omega

theorem padZeros_length_of_le (w : Nat) (s : List Char) (h : s.length ≤ w) :
    (padZeros w s).length = w := by
  unfold padZeros
  rw [List.length_append, List.length_replicate]
  omega

theorem padZeros_length_of_ge (w : Nat) (s : List Char) (h : w ≤ s.length) :
    (padZeros w s).length = s.length := by
  unfold padZeros
  rw [List.length_append, List.length_replicate]
  omega

theorem roundHalfEven_ge (num den : Nat) : num / den ≤ roundHalfEven num den := by
  unfold roundHalfEven
  simp only []
  split
  · exact Nat.le_refl _
  · split
    · omega
    · split <;> omega

theorem roundHalfEven_le (num den : Nat) : roundHalfEven num den ≤ num / den + 1 := by
  unfold roundHalfEven
  simp only []
  split
  · omega
  · split
    · omega
    · split <;> omega

theorem roundHalfEven_eq_of_lt (num den : Nat) (h : 2 * (num % den) < den) :
    roundHalfEven num den = num / den := by
  unfold roundHalfEven
  simp only []
  rw [if_pos h]

/-- Rounding stays below a bound `b` when the fraction is below `b - 1/2`. -/
theorem roundHalfEven_lt (num den b : Nat)
    (h : 2 * num + den < 2 * b * den) : roundHalfEven num den < b := by
  have hdm := Nat.div_add_mod num den
  by_cases hr : 2 * (num % den) < den
  · rw [roundHalfEven_eq_of_lt num den hr]
    by_contra hge
    have hb : b ≤ num / den := by omega
    have h1 : den * b ≤ den * (num / den) := Nat.mul_le_mul_left den hb
    have h2 : 2 * b * den = 2 * (den * b) := by ring
    omega
  · have hle := roundHalfEven_le num den
    by_contra hge
    have hb : b ≤ num / den + 1 := by omega
    have h1 : den * b ≤ den * (num / den + 1) := Nat.mul_le_mul_left den hb
    have h2 : 2 * b * den = 2 * (den * b) := by ring
    have h3 : den * (num / den + 1) = den * (num / den) + den := by ring
    omega

/-- Shape of the text of `%015.10f`: an optional sign, zeros and integer digits
without a point, then the point and exactly ten digits. -/
theorem fmt015_10f_shape (t : Double) :
    ∃ pre frac, fmt015_10f t = pre ++ '.' :: frac ∧ frac.length = 10 ∧
      (∀ ch, ch ∈ frac → ch.isDigit = true) ∧ '.' ∉ pre := by
  have hfrac : ∀ s : Nat, (padZeros 10 (decimal (s % 10 ^ 10))).length = 10 := by
    intro s
    rw [padZeros_decimal 9 _ (Nat.mod_lt _ (by norm_num)), fixedDigits_length]
  have hpoint : ∀ (k n : Nat), '.' ∉ List.replicate k '0' ++ decimal n := by
    intro k n hmem
    rcases List.mem_append.mp hmem with h1 | h1
    · have := (List.mem_replicate.mp h1).2
      revert this
      decide
    · have := decimal_isDigit n '.' h1
      revert this
      decide
  unfold fmt015_10f
  simp only []
  generalize roundHalfEven (t.value.num.natAbs * 10 ^ 10) t.value.den = s
  split
  · refine ⟨'-' :: (List.replicate (14 - (decimal (s / 10 ^ 10)
        ++ '.' :: padZeros 10 (decimal (s % 10 ^ 10))).length) '0' ++ decimal (s / 10 ^ 10)),
      padZeros 10 (decimal (s % 10 ^ 10)), ?_, hfrac s, padZeros_isDigit 10 _, ?_⟩
    · simp only [padZeros, List.cons_append, List.append_assoc]
    · intro hmem
      rcases List.mem_cons.mp hmem with h1 | h1
      · revert h1
        decide
      · exact hpoint _ _ h1
  · refine ⟨List.replicate (15 - (decimal (s / 10 ^ 10)
        ++ '.' :: padZeros 10 (decimal (s % 10 ^ 10))).length) '0' ++ decimal (s / 10 ^ 10),
      padZeros 10 (decimal (s % 10 ^ 10)), ?_, hfrac s, padZeros_isDigit 10 _, hpoint _ _⟩
    simp only [padZeros, List.append_assoc]

theorem fmt015_10f_length_ge (t : Double) : 15 ≤ (fmt015_10f t).length := by
  unfold fmt015_10f
  simp only []
  generalize roundHalfEven (t.value.num.natAbs * 10 ^ 10) t.value.den = s
  split
  · rw [List.length_cons]
    have := padZeros_length_ge 14
      (decimal (s / 10 ^ 10) ++ '.' :: padZeros 10 (decimal (s % 10 ^ 10)))
    omega
  · exact padZeros_length_ge 15 _

/-- On a value other than negative zero the sign printed is the sign of the value. -/
theorem fmt015_10f_finite (v : ℚ) :
    fmt015_10f (Double.finite v) =
      if v < 0 then
        '-' :: padZeros 14 (decimal (roundHalfEven (v.num.natAbs * 10 ^ 10) v.den / 10 ^ 10)
          ++ '.' :: padZeros 10 (decimal (roundHalfEven (v.num.natAbs * 10 ^ 10) v.den % 10 ^ 10)))
      else
        padZeros 15 (decimal (roundHalfEven (v.num.natAbs * 10 ^ 10) v.den / 10 ^ 10)
          ++ '.' :: padZeros 10 (decimal (roundHalfEven (v.num.natAbs * 10 ^ 10) v.den % 10 ^ 10)))
      := by
  simp only [fmt015_10f, Double.value, Double.signbit, decide_eq_true_eq]

theorem Double.value_ofNat (n : Nat) : (OfNat.ofNat n : Double).value = (n : ℚ) := rfl

theorem fmt015_10f_body_length (s : Nat) :
    (decimal (s / 10 ^ 10) ++ '.' :: padZeros 10 (decimal (s % 10 ^ 10))).length
      = (decimal (s / 10 ^ 10)).length + 11 := by
  rw [List.length_append, List.length_cons,
    padZeros_decimal 9 _ (Nat.mod_lt _ (by norm_num)), fixedDigits_length]

theorem rat_eq_natAbs_div (t : ℚ) (h0 : 0 ≤ t) : t = (t.num.natAbs : ℚ) / (t.den : ℚ) := by
  have hnum : (0 : Int) ≤ t.num := Rat.num_nonneg.mpr h0
  have hcast : ((t.num.natAbs : Int) : ℚ) = (t.num : ℚ) := by
    rw [Int.natAbs_of_nonneg hnum]
  have h := (Rat.num_div_den t).symm
  rw [← hcast, Int.cast_natCast] at h
  exact h

theorem fmt015_10f_length_small (t : ℚ) (h0 : 0 ≤ t) (h1 : t < 10000 - 1 / 20000000000) :
    (fmt015_10f (Double.finite t)).length = 15 := by
  have hneg : ¬ t < 0 := not_lt.mpr h0
  have hd : (0 : ℚ) < (t.den : ℚ) := by exact_mod_cast t.den_pos
  have ht := rat_eq_natAbs_div t h0
  rw [ht, div_lt_iff₀ hd] at h1
  have hq : (2 * (t.num.natAbs * 10 ^ 10) + t.den : ℚ) < 2 * 10 ^ 14 * t.den := by
    linarith
  have hn : 2 * (t.num.natAbs * 10 ^ 10) + t.den < 2 * 10 ^ 14 * t.den := by
    exact_mod_cast hq
  have hs := roundHalfEven_lt (t.num.natAbs * 10 ^ 10) t.den (10 ^ 14) hn
  have hip : roundHalfEven (t.num.natAbs * 10 ^ 10) t.den / 10 ^ 10 < 10 ^ (3 + 1) := by
    rw [Nat.div_lt_iff_lt_mul (by norm_num)]
    calc roundHalfEven (t.num.natAbs * 10 ^ 10) t.den < 10 ^ 14 := hs
      _ = 10 ^ (3 + 1) * 10 ^ 10 := by norm_num
  have hlen := decimal_length_le 3 _ hip
  rw [fmt015_10f_finite, if_neg hneg]
  apply padZeros_length_of_le
  rw [fmt015_10f_body_length]
  omega

theorem fmt015_10f_length_large (t : ℚ) (h : 10000 ≤ t) :
    15 < (fmt015_10f (Double.finite t)).length := by
  have h0 : 0 ≤ t := le_trans (by norm_num) h
  have hneg : ¬ t < 0 := not_lt.mpr h0
  have hd : (0 : ℚ) < (t.den : ℚ) := by exact_mod_cast t.den_pos
  have ht := rat_eq_natAbs_div t h0
  rw [ht, le_div_iff₀ hd] at h
  have hq : (10 ^ 14 * t.den : ℚ) ≤ t.num.natAbs * 10 ^ 10 := by linarith
  have hn : 10 ^ 14 * t.den ≤ t.num.natAbs * 10 ^ 10 := by exact_mod_cast hq
  have hdiv : 10 ^ 14 ≤ t.num.natAbs * 10 ^ 10 / t.den :=
    (Nat.le_div_iff_mul_le t.den_pos).mpr hn
  have hs := le_trans hdiv (roundHalfEven_ge (t.num.natAbs * 10 ^ 10) t.den)
  have hip : 10 ^ 4 ≤ roundHalfEven (t.num.natAbs * 10 ^ 10) t.den / 10 ^ 10 := by
    rw [Nat.le_div_iff_mul_le (by norm_num)]
    calc 10 ^ 4 * 10 ^ 10 = 10 ^ 14 := by norm_num
      _ ≤ _ := hs
  have hlen := decimal_length_ge 4 _ hip
  rw [fmt015_10f_finite, if_neg hneg, padZeros_length_of_ge _ _ (by rw [fmt015_10f_body_length]; omega),
    fmt015_10f_body_length]
  omega

/-- C8 (amended): with timestamp naming the index of every frame is the
`%015.10f` rendering of that frame's time stamp: a fixed-point text with exactly
ten digits after its only decimal point and at least 15 characters.  It has
exactly 15 characters when `0 ≤ t < 9999.99999999995` and more than 15 when
`t ≥ 10000`. -/
theorem timestamp_index_format (t : Double) (frame : Nat) :
    frameIndex true t frame = fmt015_10f t ∧
    15 ≤ (frameIndex true t frame).length ∧
    (∃ pre frac, frameIndex true t frame = pre ++ '.' :: frac ∧ frac.length = 10 ∧
      (∀ ch, ch ∈ frac → ch.isDigit = true) ∧ '.' ∉ pre) ∧
    (0 ≤ t.value → t.value < 10000 - 1 / 20000000000 →
      (frameIndex true t frame).length = 15) ∧
    (10000 ≤ t.value → 15 < (frameIndex true t frame).length) := by
  rw [frameIndex_time]
  refine ⟨rfl, fmt015_10f_length_ge t, fmt015_10f_shape t, ?_, ?_⟩
  · cases t with
    | negZero =>
      intro _ _
      decide
    | finite v => exact fmt015_10f_length_small v
  · cases t with
    | negZero =>
      intro h
      exact absurd h (by norm_num [Double.value])
    | finite v => exact fmt015_10f_length_large v

theorem timestamp_index_format_witness :
    String.mk (frameIndex true 1234 0) = "1234.0000000000" ∧
    (frameIndex true 1234 0).length = 15 ∧
    15 < (frameIndex true 10000 0).length ∧
    String.mk (frameIndex true Double.negZero 0) = "-000.0000000000" :=
  ⟨by decide,
   (timestamp_index_format 1234 0).2.2.2.1 (by rw [Double.value_ofNat]; norm_num)
     (by rw [Double.value_ofNat]; norm_num),
   (timestamp_index_format 10000 0).2.2.2.2 (by rw [Double.value_ofNat]; norm_num),
   by decide⟩

/-- C8 as stated fails: the time stamp `1600000000` (seconds since the epoch) is
rendered with 21 characters, not 15. -/
theorem timestamp_index_width_counterexample :
    String.mk (frameIndex true 1600000000 0) = "1600000000.0000000000" ∧
    (frameIndex true 1600000000 0).length = 21 := by
  decide

/-! ## The depth file -/

theorem isDigit_bounds (ch : Char) (h : ch.isDigit = true) : 48 ≤ ch.toNat ∧ ch.toNat ≤ 57 := by
  unfold Char.isDigit at h
  simp only [Bool.and_eq_true, decide_eq_true_eq] at h
  exact ⟨h.1, h.2⟩

theorem readLiteral_append (lit rest : List Nat) : readLiteral lit (lit ++ rest) = some rest := by
  induction lit with
  | nil => cases rest <;> rfl
  | cons l lit ih => simp [readLiteral, ih]

theorem readDigits_ascii (s : List Char) (x : Nat) (rest : List Nat) (acc : Nat)
    (hs : ∀ ch, ch ∈ s → ch.isDigit = true) (hx : ¬ (48 ≤ x ∧ x ≤ 57)) :
    readDigits (asciiBytes s ++ x :: rest) acc =
      (s.foldl (fun a ch => 10 * a + digitValue ch) acc, x :: rest) := by
  induction s generalizing acc with
  | nil => simp [asciiBytes, readDigits, hx]
  | cons ch s ih =>
    have hb := isDigit_bounds ch (hs ch (List.mem_cons_self _ _))
    have ih2 := ih (10 * acc + digitValue ch) (fun c hc => hs c (List.mem_cons_of_mem _ hc))
    simp only [asciiBytes, List.map_cons, List.cons_append, readDigits, hb, and_self, if_true,
      List.foldl_cons] at ih2 ⊢
    exact ih2

theorem readNumber_decimal (n x : Nat) (rest : List Nat) (hx : ¬ (48 ≤ x ∧ x ≤ 57)) :
    readNumber (asciiBytes (decimal n) ++ x :: rest) = some (n, x :: rest) := by
  have hd := readDigits_ascii (decimal n) x rest 0 (decimal_isDigit n) hx
  have hval : (decimal n).foldl (fun a ch => 10 * a + digitValue ch) 0 = n := readDecimal_decimal n
  rw [hval] at hd
  cases hdec : decimal n with
  | nil =>
    have := decimal_length_pos n
    rw [hdec] at this
    exact absurd this (Nat.lt_irrefl 0)
  | cons ch s =>
    have hb := isDigit_bounds ch (decimal_isDigit n ch (by rw [hdec]; exact List.mem_cons_self _ _))
    rw [hdec] at hd
    simp only [asciiBytes, List.map_cons, List.cons_append, readNumber, hb, and_self, if_true]
      at hd ⊢
    rw [hd]

theorem showInt_natCast (n : Nat) : showInt (n : Int) = decimal n := by
  unfold showInt
  have h : ¬ ((n : Int) < 0) := by omega
  rw [if_neg h, Int.toNat_ofNat]

theorem toSizeT_natCast (n : Nat) (h : n < 2 ^ 64) : toSizeT (n : Int) = n := by
  unfold toSizeT
  have h1 : ((n : Int) % 2 ^ 64) = (n : Int) := Int.emod_eq_of_lt (by omega) (by omega)
  rw [h1, Int.toNat_ofNat]

theorem pdmSize_of_small (W H : Nat) (data : Nat → Nat) (hW : W < 2 ^ 31) (hH : H < 2 ^ 31)
    (hsize : W * H * 4 < 2 ^ 32) : pdmSize ⟨(H : Int), (W : Int), data⟩ = W * H * 4 := by
  unfold pdmSize toUInt32 Mat.elemSize1
  simp only []
  rw [toSizeT_natCast H (by omega), toSizeT_natCast W (by omega)]
  have h1 : 4 * H % 2 ^ 64 = 4 * H := Nat.mod_eq_of_lt (by omega)
  have h2 : 4 * H * W = W * H * 4 := by ring
  rw [h1, h2, Nat.mod_eq_of_lt (by omega : W * H * 4 < 2 ^ 64), Nat.mod_eq_of_lt hsize]

/-- Below 4 GiB the depth file is the header followed by the whole depth buffer
(`W*H*4` bytes), and reading the header back yields `W`, `H` and that payload. -/
theorem pdm_roundtrip (W H : Nat) (data : Nat → Nat) (hW : W < 2 ^ 31) (hH : H < 2 ^ 31)
    (hsize : W * H * 4 < 2 ^ 32) :
    pdmBytes ⟨(H : Int), (W : Int), data⟩ =
      asciiBytes ("P7\n".data ++ decimal W ++ " ".data ++ decimal H ++ "\n4294967295\n".data)
        ++ (List.range (W * H * 4)).map data ∧
    ((List.range (W * H * 4)).map data).length = W * H * 4 ∧
    readPdmHeader (pdmBytes ⟨(H : Int), (W : Int), data⟩) =
      some (W, H, (List.range (W * H * 4)).map data) := by
  have hbytes : pdmBytes ⟨(H : Int), (W : Int), data⟩ =
      asciiBytes ("P7\n".data ++ decimal W ++ " ".data ++ decimal H ++ "\n4294967295\n".data)
        ++ (List.range (W * H * 4)).map data := by
    unfold pdmBytes pdmHeader
    simp only []
    rw [pdmSize_of_small W H data hW hH hsize, showInt_natCast, showInt_natCast]
    simp [asciiBytes]
  refine ⟨hbytes, by simp, ?_⟩
  rw [hbytes]
  have hsplit : asciiBytes ("P7\n".data ++ decimal W ++ " ".data ++ decimal H
        ++ "\n4294967295\n".data) ++ (List.range (W * H * 4)).map data =
      asciiBytes "P7\n".data ++ (asciiBytes (decimal W) ++ 32 ::
        (asciiBytes (decimal H) ++ 10 ::
          (asciiBytes "4294967295\n".data ++ (List.range (W * H * 4)).map data))) := by
    simp [asciiBytes]
  rw [hsplit]
  unfold readPdmHeader
  rw [readLiteral_append]
  simp only []
  rw [readNumber_decimal W 32 _ (by decide)]
  simp only []
  have hsp : asciiBytes " ".data = [32] := by decide
  rw [hsp]
  simp only [readLiteral, if_true]
  rw [readNumber_decimal H 10 _ (by decide)]
  simp only []
  have hnl : ∀ r : List Nat, 10 :: (asciiBytes "4294967295\n".data ++ r)
      = asciiBytes "\n4294967295\n".data ++ r := by
    intro r
    simp [asciiBytes]
  rw [hnl, readLiteral_append]

/-- C3 at the failing input: for a camera of 32768 x 32768 pixels the depth buffer
holds `2^32` bytes, the byte count stored in `unsigned int Size` is 0, and for
every frame and every behaviour of the library code the depth file written
consists of the 26 header bytes alone. -/
theorem depth_file_truncated_at_4GiB (c : Collaborators) (args : Args)
    (cam0 cam1 : CameraModel) (images : StereoFrame) :
    (32768 : Nat) * 32768 * 4 = 2 ^ 32 ∧
    pdmSize (computeDepth c (setupOf c args wideCamera cam0 cam1) images) = 0 ∧
    pdmBytes (computeDepth c (setupOf c args wideCamera cam0 cam1) images) =
      asciiBytes "P7\n32768 32768\n4294967295\n".data ∧
    (pdmBytes (computeDepth c (setupOf c args wideCamera cam0 cam1) images)).length = 26 := by
  have hrows : (computeDepth c (setupOf c args wideCamera cam0 cam1) images).rows = 32768 := by
    show toInt32 (toUInt32 32768) = 32768
    decide
  have hcols : (computeDepth c (setupOf c args wideCamera cam0 cam1) images).cols = 32768 := by
    show toInt32 (toUInt32 32768) = 32768
    decide
  have hsize : pdmSize (computeDepth c (setupOf c args wideCamera cam0 cam1) images) = 0 := by
    unfold pdmSize Mat.elemSize1
    rw [hrows, hcols]
    decide
  have hhead : asciiBytes (pdmHeader (computeDepth c (setupOf c args wideCamera cam0 cam1) images))
      = asciiBytes "P7\n32768 32768\n4294967295\n".data := by
    unfold pdmHeader
    rw [hrows, hcols]
    decide
  have hbytes : pdmBytes (computeDepth c (setupOf c args wideCamera cam0 cam1) images) =
      asciiBytes "P7\n32768 32768\n4294967295\n".data := by
    unfold pdmBytes
    rw [hsize, hhead]
    rfl
  refine ⟨by norm_num, hsize, hbytes, ?_⟩
  rw [hbytes]
  decide

/-! ## The baseline -/

/-- The depth matrix of a frame depends on the matcher only through its first
(left-reference) disparity buffer; the kernel is called with `Kl(0,0)` of camera 0
and the baseline of the startup. -/
theorem computeDepth_left_only (c c2 : Collaborators) (args : Args) (camera : Camera)
    (cam0 cam1 : CameraModel) (images : StereoFrame)
    (hk : c2.Disp2Depth = c.Disp2Depth)
    (hleft : ∀ l r d, (c2.process l r d).1 = (c.process l r d).1) :
    (computeDepth c2 (setupOf c args camera cam0 cam1) images).data =
      c.Disp2Depth (toUInt32 camera.Width) (toUInt32 camera.Height)
        (c.process (images.left.take (toUInt32 (toUInt32 camera.Width * toUInt32 camera.Height)))
          (images.right.take (toUInt32 (toUInt32 camera.Width * toUInt32 camera.Height)))
          (toInt32 (toUInt32 camera.Width), toInt32 (toUInt32 camera.Height),
            toInt32 (toUInt32 camera.Width))).1
        (c.toFloat cam0.K.m00) (baselineOf c cam0 cam1) := by
  simp only [computeDepth, setupOf, hk, hleft]

/-! ## The index text and its buffer -/

theorem padZeros_length_le (w : Nat) (s : List Char) :
    (padZeros w s).length ≤ max w s.length := by
  unfold padZeros
  rw [List.length_append, List.length_replicate]
  omega

theorem toInt32_range (n : Nat) : -(2 : Int) ^ 31 ≤ toInt32 n ∧ toInt32 n < 2 ^ 31 := by
  unfold toInt32
  have h := Nat.mod_lt n (by norm_num : 0 < 2 ^ 32)
  split <;> constructor <;> omega

/-- The counter index always fits the buffer `index[30]`: at most 11 characters. -/
theorem counter_index_length (t : Double) (n : Nat) : (frameIndex false t n).length ≤ 11 := by
  rw [frameIndex_counter]
  obtain ⟨hlo, hhi⟩ := toInt32_range n
  have hlen : ∀ m : Nat, m ≤ 2 ^ 31 → (decimal m).length ≤ 10 := by
    intro m hm
    exact decimal_length_le 9 m (by
      have : (2 : Nat) ^ 31 < 10 ^ (9 + 1) := by norm_num
      omega)
  have hpad := padZeros_length_le
  unfold fmt05d
  split
  · have h1 := hlen (toInt32 n).natAbs (by omega)
    have h2 := hpad 4 (decimal (toInt32 n).natAbs)
    rw [List.length_cons]
    omega
  · have h1 := hlen (toInt32 n).toNat (by omega)
    have h2 := hpad 5 (decimal (toInt32 n).toNat)
    omega

/-- The time stamp index fits the buffer `index[30]` for magnitudes below `10^18`
(shown here for `0 ≤ t`). -/
theorem timestamp_index_fits (t : ℚ) (frame : Nat) (h0 : 0 ≤ t) (h1 : t < 10 ^ 18 - 1) :
    (frameIndex true (Double.finite t) frame).length < 30 := by
  rw [frameIndex_time]
  have hneg : ¬ t < 0 := not_lt.mpr h0
  have hd : (0 : ℚ) < (t.den : ℚ) := by exact_mod_cast t.den_pos
  have ht := rat_eq_natAbs_div t h0
  rw [ht, div_lt_iff₀ hd] at h1
  have hq : (2 * (t.num.natAbs * 10 ^ 10) + t.den : ℚ) < 2 * 10 ^ 28 * t.den := by
    nlinarith
  have hn : 2 * (t.num.natAbs * 10 ^ 10) + t.den < 2 * 10 ^ 28 * t.den := by
    exact_mod_cast hq
  have hs := roundHalfEven_lt (t.num.natAbs * 10 ^ 10) t.den (10 ^ 28) hn
  have hip : roundHalfEven (t.num.natAbs * 10 ^ 10) t.den / 10 ^ 10 < 10 ^ (17 + 1) := by
    rw [Nat.div_lt_iff_lt_mul (by norm_num)]
    calc roundHalfEven (t.num.natAbs * 10 ^ 10) t.den < 10 ^ 28 := hs
      _ = 10 ^ (17 + 1) * 10 ^ 10 := by norm_num
  have hlen := decimal_length_le 17 _ hip
  rw [fmt015_10f_finite, if_neg hneg]
  have hb := fmt015_10f_body_length (roundHalfEven (t.num.natAbs * 10 ^ 10) t.den)
  have hp := padZeros_length_le 15
    (decimal (roundHalfEven (t.num.natAbs * 10 ^ 10) t.den / 10 ^ 10)
      ++ '.' :: padZeros 10 (decimal (roundHalfEven (t.num.natAbs * 10 ^ 10) t.den % 10 ^ 10)))
  rw [hb] at hp
  omega

/-! ## Distinct time stamps, distinct texts -/

end Elas
